import Mathlib

set_option maxHeartbeats 1000000

/-!
Shallow embedding of the secure-filters output-encoding library (index.js).

A JavaScript string is modelled as a list of UTF-16 code units, `List Nat`
(each element below 0x10000 for a real string; the encoders are total on all
of `Nat`).  Every regex in the source is a single-code-unit character class
applied with a global replace, so `String.prototype.replace` becomes a
`List.flatMap` over code units; the one multi-character regex
(`CDATA_CLOSE`) is embedded as an explicit left-to-right scan.
-/

/-- Uppercase hexadecimal digit character for a digit value below 16. -/
def hexDigitU (d : Nat) : Nat := if d < 10 then 0x30 + d else 0x37 + d

/-- Lowercase hexadecimal digit character for a digit value below 16. -/
def hexDigitL (d : Nat) : Nat := if d < 10 then 0x30 + d else 0x57 + d

/-- Digit values of `n` in base `b`, most significant first.  Fuel-based so
that it reduces in the kernel; `digitsBase` supplies sufficient fuel. -/
def digitsAux (b : Nat) : Nat → Nat → List Nat → List Nat
  | 0, _, acc => acc
  | fuel+1, n, acc => if n < b then n :: acc else digitsAux b fuel (n / b) (n % b :: acc)

/-- Digit values of `n` in base `b`, most significant first; at least one digit. -/
def digitsBase (b n : Nat) : List Nat := digitsAux b (n + 1) n []

/-- Code units of `n.toString(10)`. -/
def decRep (n : Nat) : List Nat := (digitsBase 10 n).map (fun d => 0x30 + d)

/-- Code units of `n.toString(16).toUpperCase()`. -/
def hexUpper (n : Nat) : List Nat := (digitsBase 16 n).map hexDigitU

/-- Code units of `n.toString(16).toLowerCase()`. -/
def hexLower (n : Nat) : List Nat := (digitsBase 16 n).map hexDigitL

/-- Left-pad a digit string with the character 0 (0x30) up to length `k`. -/
def padTo (k : Nat) (ds : List Nat) : List Nat :=
  List.replicate (k - ds.length) 0x30 ++ ds

/-- Character class of the source regex
`HTML_CONTROL = /[\x00-\x08\x0B\x0C\x0E-\x1F\x7F-\x9F]/g`. -/
def HTML_CONTROL (u : Nat) : Prop :=
  u ≤ 0x08 ∨ u = 0x0B ∨ u = 0x0C ∨ (0x0E ≤ u ∧ u ≤ 0x1F) ∨ (0x7F ≤ u ∧ u ≤ 0x9F)

instance (u : Nat) : Decidable (HTML_CONTROL u) :=
  inferInstanceAs (Decidable
    (u ≤ 0x08 ∨ u = 0x0B ∨ u = 0x0C ∨ (0x0E ≤ u ∧ u ≤ 0x1F) ∨ (0x7F ≤ u ∧ u ≤ 0x9F)))

/-- The (positive) character class complemented by the source regex
`HTML_NOT_WHITELISTED = /[^\t\n\v\f\r ,\.0-9A-Z_a-z\- -￿]/g`. -/
def htmlWhitelistChar (u : Nat) : Prop :=
  u = 0x09 ∨ u = 0x0A ∨ u = 0x0B ∨ u = 0x0C ∨ u = 0x0D ∨ u = 0x20 ∨ u = 0x2C ∨
  u = 0x2E ∨ (0x30 ≤ u ∧ u ≤ 0x39) ∨ (0x41 ≤ u ∧ u ≤ 0x5A) ∨ u = 0x5F ∨
  (0x61 ≤ u ∧ u ≤ 0x7A) ∨ u = 0x2D ∨ (0xA0 ≤ u ∧ u ≤ 0xFFFF)

instance (u : Nat) : Decidable (htmlWhitelistChar u) :=
  inferInstanceAs (Decidable
    (u = 0x09 ∨ u = 0x0A ∨ u = 0x0B ∨ u = 0x0C ∨ u = 0x0D ∨ u = 0x20 ∨ u = 0x2C ∨
     u = 0x2E ∨ (0x30 ≤ u ∧ u ≤ 0x39) ∨ (0x41 ≤ u ∧ u ≤ 0x5A) ∨ u = 0x5F ∨
     (0x61 ≤ u ∧ u ≤ 0x7A) ∨ u = 0x2D ∨ (0xA0 ≤ u ∧ u ≤ 0xFFFF)))

/-- Matches of the source regex `HTML_NOT_WHITELISTED`. -/
def HTML_NOT_WHITELISTED (u : Nat) : Prop := ¬ htmlWhitelistChar u

instance (u : Nat) : Decidable (HTML_NOT_WHITELISTED u) :=
  inferInstanceAs (Decidable (¬ htmlWhitelistChar u))

/-- The character class complemented by the source regex
`JS_NOT_WHITELISTED = /[^,\-\.0-9A-Z_a-z]/g`. -/
def jsWhitelistChar (u : Nat) : Prop :=
  u = 0x2C ∨ u = 0x2D ∨ u = 0x2E ∨ (0x30 ≤ u ∧ u ≤ 0x39) ∨
  (0x41 ≤ u ∧ u ≤ 0x5A) ∨ u = 0x5F ∨ (0x61 ≤ u ∧ u ≤ 0x7A)

instance (u : Nat) : Decidable (jsWhitelistChar u) :=
  inferInstanceAs (Decidable
    (u = 0x2C ∨ u = 0x2D ∨ u = 0x2E ∨ (0x30 ≤ u ∧ u ≤ 0x39) ∨
     (0x41 ≤ u ∧ u ≤ 0x5A) ∨ u = 0x5F ∨ (0x61 ≤ u ∧ u ≤ 0x7A)))

/-- Matches of the source regex `JS_NOT_WHITELISTED`. -/
def JS_NOT_WHITELISTED (u : Nat) : Prop := ¬ jsWhitelistChar u

instance (u : Nat) : Decidable (JS_NOT_WHITELISTED u) :=
  inferInstanceAs (Decidable (¬ jsWhitelistChar u))

/-- The character class complemented by the source regex
`JSON_NOT_WHITELISTED = /[^\x22,\-\.0-9:A-Z\[\x5C\]_a-z{}]/g`. -/
def jsonWhitelistChar (u : Nat) : Prop :=
  u = 0x22 ∨ u = 0x2C ∨ u = 0x2D ∨ u = 0x2E ∨ (0x30 ≤ u ∧ u ≤ 0x39) ∨ u = 0x3A ∨
  (0x41 ≤ u ∧ u ≤ 0x5A) ∨ u = 0x5B ∨ u = 0x5C ∨ u = 0x5D ∨ u = 0x5F ∨
  (0x61 ≤ u ∧ u ≤ 0x7A) ∨ u = 0x7B ∨ u = 0x7D

instance (u : Nat) : Decidable (jsonWhitelistChar u) :=
  inferInstanceAs (Decidable
    (u = 0x22 ∨ u = 0x2C ∨ u = 0x2D ∨ u = 0x2E ∨ (0x30 ≤ u ∧ u ≤ 0x39) ∨ u = 0x3A ∨
     (0x41 ≤ u ∧ u ≤ 0x5A) ∨ u = 0x5B ∨ u = 0x5C ∨ u = 0x5D ∨ u = 0x5F ∨
     (0x61 ≤ u ∧ u ≤ 0x7A) ∨ u = 0x7B ∨ u = 0x7D))

/-- Matches of the source regex `JSON_NOT_WHITELISTED`. -/
def JSON_NOT_WHITELISTED (u : Nat) : Prop := ¬ jsonWhitelistChar u

instance (u : Nat) : Decidable (JSON_NOT_WHITELISTED u) :=
  inferInstanceAs (Decidable (¬ jsonWhitelistChar u))

/-- The character class complemented by the source regex
`CSS_NOT_WHITELISTED = /[^a-zA-Z0-9\uD800-\uDFFF]/g`: letters, digits and
UTF-16 surrogate code units. -/
def cssWhitelistChar (u : Nat) : Prop :=
  (0x61 ≤ u ∧ u ≤ 0x7A) ∨ (0x41 ≤ u ∧ u ≤ 0x5A) ∨ (0x30 ≤ u ∧ u ≤ 0x39) ∨
  (0xD800 ≤ u ∧ u ≤ 0xDFFF)

instance (u : Nat) : Decidable (cssWhitelistChar u) :=
  inferInstanceAs (Decidable
    ((0x61 ≤ u ∧ u ≤ 0x7A) ∨ (0x41 ≤ u ∧ u ≤ 0x5A) ∨ (0x30 ≤ u ∧ u ≤ 0x39) ∨
     (0xD800 ≤ u ∧ u ≤ 0xDFFF)))

/-- Matches of the source regex `CSS_NOT_WHITELISTED`. -/
def CSS_NOT_WHITELISTED (u : Nat) : Prop := ¬ cssWhitelistChar u

instance (u : Nat) : Decidable (CSS_NOT_WHITELISTED u) :=
  inferInstanceAs (Decidable (¬ cssWhitelistChar u))

/-- The replacement callback of `secureFilters.html`: named entity for
quote, ampersand and angle brackets, decimal entity below 100, uppercase
hexadecimal entity otherwise. -/
def htmlEncodeChar (u : Nat) : List Nat :=
  if u = 0x22 then [0x26, 0x71, 0x75, 0x6F, 0x74, 0x3B]
  else if u = 0x26 then [0x26, 0x61, 0x6D, 0x70, 0x3B]
  else if u = 0x3C then [0x26, 0x6C, 0x74, 0x3B]
  else if u = 0x3E then [0x26, 0x67, 0x74, 0x3B]
  else if u < 100 then [0x26, 0x23] ++ decRep u ++ [0x3B]
  else [0x26, 0x23, 0x78] ++ hexUpper u ++ [0x3B]

/-- `secureFilters.html`: first pass converts control characters to spaces,
second pass entity-encodes everything outside the HTML whitelist. -/
def html (l : List Nat) : List Nat :=
  (l.map (fun u => if HTML_CONTROL u then 0x20 else u)).flatMap
    (fun u => if HTML_NOT_WHITELISTED u then htmlEncodeChar u else [u])

/-- `jsSlashEncoder` from the source: `\xHH` below 0x80 (padding one-digit
hex), `\u00HH`/`\u0HHH`/`\uHHHH` by hex length otherwise, with `�`
for values whose hex form exceeds four digits. -/
def jsSlashEncoder (u : Nat) : List Nat :=
  let hex := hexUpper u
  if u < 0x80 then
    if hex.length = 1 then [0x5C, 0x78, 0x30] ++ hex
    else [0x5C, 0x78] ++ hex
  else
    if hex.length = 2 then [0x5C, 0x75, 0x30, 0x30] ++ hex
    else if hex.length = 3 then [0x5C, 0x75, 0x30] ++ hex
    else if hex.length = 4 then [0x5C, 0x75] ++ hex
    else [0x5C, 0x75, 0x46, 0x46, 0x46, 0x44]

/-- `secureFilters.js`: backslash-encodes every code unit outside the JS
whitelist. -/
def js (l : List Nat) : List Nat :=
  l.flatMap (fun u => if JS_NOT_WHITELISTED u then jsSlashEncoder u else [u])

/-- `secureFilters.jsAttr`: JS-encode, then HTML-encode. -/
def jsAttr (l : List Nat) : List Nat := html (js l)

/-- The replacement string of the source `CDATA_CLOSE` rule:
`\x5D\x5D\x3E`. -/
def cdataRepl : List Nat :=
  [0x5C, 0x78, 0x35, 0x44, 0x5C, 0x78, 0x35, 0x44, 0x5C, 0x78, 0x33, 0x45]

/-- Scan implementing the global replace of the source regex
`CDATA_CLOSE = /\]\](?:>|\\x3E|\\u003E)/gi`: two right brackets followed by
a greater-than sign, or by a backslash escape of one (`x`/`u` and the final
hex letter case-insensitively).  Fuel-based (one unit per consumed code
unit) so that it reduces in the kernel. -/
def replaceCdataAux : Nat → List Nat → List Nat
  | 0, l => l
  | _fuel+1, [] => []
  | fuel+1, c :: rest =>
    if c = 0x5D then
      match rest with
      | 0x5D :: rest2 =>
        match rest2 with
        | 0x3E :: r => cdataRepl ++ replaceCdataAux fuel r
        | 0x5C :: x :: 0x33 :: e :: r =>
          if (x = 0x78 ∨ x = 0x58) ∧ (e = 0x65 ∨ e = 0x45) then
            cdataRepl ++ replaceCdataAux fuel r
          else c :: replaceCdataAux fuel (0x5D :: rest2)
        | 0x5C :: x :: 0x30 :: 0x30 :: 0x33 :: e :: r =>
          if (x = 0x75 ∨ x = 0x55) ∧ (e = 0x65 ∨ e = 0x45) then
            cdataRepl ++ replaceCdataAux fuel r
          else c :: replaceCdataAux fuel (0x5D :: rest2)
        | _ => c :: replaceCdataAux fuel (0x5D :: rest2)
      | _ => c :: replaceCdataAux fuel rest
    else c :: replaceCdataAux fuel rest

/-- Global replace of `CDATA_CLOSE` by `\x5D\x5D\x3E`. -/
def replaceCdata (l : List Nat) : List Nat := replaceCdataAux (l.length + 1) l

/-- `secureFilters.json`: backslash-encodes every code unit outside the
JSON whitelist, then replaces `CDATA_CLOSE` matches. -/
def json (l : List Nat) : List Nat :=
  replaceCdata
    (l.flatMap (fun u => if JSON_NOT_WHITELISTED u then jsSlashEncoder u else [u]))

/-- The replacement callback of `secureFilters.css`: `\fffd ` for NUL,
otherwise a backslash, the lowercase hex of the code unit and a trailing
space. -/
def cssEncodeChar (u : Nat) : List Nat :=
  if u = 0 then [0x5C, 0x66, 0x66, 0x66, 0x64, 0x20]
  else [0x5C] ++ hexLower u ++ [0x20]

/-- `secureFilters.css`: backslash-encodes every code unit outside the CSS
whitelist. -/
def css (l : List Nat) : List Nat :=
  l.flatMap (fun u => if CSS_NOT_WHITELISTED u then cssEncodeChar u else [u])

/-- `secureFilters.style`: CSS-encode, then HTML-encode. -/
def style (l : List Nat) : List Nat := html (css l)

/-- The unreserved set of the platform `encodeURIComponent`: ASCII letters,
digits, hyphen, underscore, period, exclamation mark, tilde, asterisk,
apostrophe and the two parentheses. -/
def uriUnreserved (u : Nat) : Prop :=
  (0x30 ≤ u ∧ u ≤ 0x39) ∨ (0x41 ≤ u ∧ u ≤ 0x5A) ∨ (0x61 ≤ u ∧ u ≤ 0x7A) ∨
  u = 0x2D ∨ u = 0x5F ∨ u = 0x2E ∨ u = 0x21 ∨ u = 0x7E ∨ u = 0x2A ∨
  u = 0x27 ∨ u = 0x28 ∨ u = 0x29

instance (u : Nat) : Decidable (uriUnreserved u) :=
  inferInstanceAs (Decidable
    ((0x30 ≤ u ∧ u ≤ 0x39) ∨ (0x41 ≤ u ∧ u ≤ 0x5A) ∨ (0x61 ≤ u ∧ u ≤ 0x7A) ∨
     u = 0x2D ∨ u = 0x5F ∨ u = 0x2E ∨ u = 0x21 ∨ u = 0x7E ∨ u = 0x2A ∨
     u = 0x27 ∨ u = 0x28 ∨ u = 0x29))

/-- A percent-encoded octet `%XX` with exactly two uppercase hex digits. -/
def pctByte (b : Nat) : List Nat := [0x25] ++ padTo 2 (hexUpper b)

/-- Percent-encoded UTF-8 byte sequence of a Unicode code point. -/
def utf8pct (cp : Nat) : List Nat :=
  if cp < 0x80 then pctByte cp
  else if cp < 0x800 then
    pctByte (0xC0 + cp / 0x40) ++ pctByte (0x80 + cp % 0x40)
  else if cp < 0x10000 then
    pctByte (0xE0 + cp / 0x1000) ++ pctByte (0x80 + cp / 0x40 % 0x40) ++
      pctByte (0x80 + cp % 0x40)
  else
    pctByte (0xF0 + cp / 0x40000) ++ pctByte (0x80 + cp / 0x1000 % 0x40) ++
      pctByte (0x80 + cp / 0x40 % 0x40) ++ pctByte (0x80 + cp % 0x40)

/-- Modelled from the spec: the platform builtin `encodeURIComponent`, which
`secureFilters.uri` calls but the repository does not define.  Follows the
Encode abstract operation of ECMA-262: unreserved code units pass through,
other code points are UTF-8 percent-encoded, and an unpaired UTF-16
surrogate half raises `URIError` (modelled as `Except.error ()`). -/
def encodeURIComponentAux : List Nat → Except Unit (List Nat)
  | [] => .ok []
  | u :: rest =>
    if uriUnreserved u then (encodeURIComponentAux rest).map (u :: ·)
    else if u < 0xD800 ∨ 0xE000 ≤ u then
      (encodeURIComponentAux rest).map (utf8pct u ++ ·)
    else if u < 0xDC00 then
      match rest with
      | [] => .error ()
      | v :: rest2 =>
        if 0xDC00 ≤ v ∧ v < 0xE000 then
          (encodeURIComponentAux rest2).map
            (utf8pct ((u - 0xD800) * 0x400 + (v - 0xDC00) + 0x10000) ++ ·)
        else .error ()
    else .error ()

/-- Single-character global replace, as used for the source regexes `BANG`,
`QUOT`, `APOS`, `LPAREN`, `RPAREN`, `AST` and `TILDE`. -/
def chrep (c : Nat) (repl : List Nat) (l : List Nat) : List Nat :=
  l.flatMap (fun u => if u = c then repl else [u])

/-- `secureFilters.uri`: `encodeURIComponent` followed by the seven
post-replacements of characters the builtin leaves unescaped. -/
def uri (l : List Nat) : Except Unit (List Nat) :=
  (encodeURIComponentAux l).map (fun e =>
    chrep 0x7E [0x25, 0x37, 0x45]
      (chrep 0x2A [0x25, 0x32, 0x41]
        (chrep 0x29 [0x25, 0x32, 0x39]
          (chrep 0x28 [0x25, 0x32, 0x38]
            (chrep 0x27 [0x25, 0x32, 0x37]
              (chrep 0x22 [0x25, 0x32, 0x37]
                (chrep 0x21 [0x25, 0x32, 0x31] e)))))))

/-- Inductive model of a JSON-serializable JavaScript value. -/
inductive Jval where
  | null : Jval
  | bool : Bool → Jval
  | num : Int → Jval
  | str : List Nat → Jval
  | arr : List Jval → Jval
  | obj : List (List Nat × Jval) → Jval

/-- Modelled from the spec: the string-literal part of the platform
`JSON.stringify` serialization (quote and backslash escaped, control
characters rendered as `\u00XX` escapes, everything else verbatim). -/
def jsonQuoteString (s : List Nat) : List Nat :=
  [0x22] ++
    (s.flatMap (fun u =>
      if u = 0x22 then [0x5C, 0x22]
      else if u = 0x5C then [0x5C, 0x5C]
      else if u < 0x20 then [0x5C, 0x75] ++ padTo 4 (hexUpper u)
      else [u])) ++
  [0x22]

/-- Decimal code units of an integer. -/
def intRep (n : Int) : List Nat :=
  if n < 0 then 0x2D :: decRep n.natAbs else decRep n.natAbs

mutual

/-- Modelled from the spec: the platform builtin `JSON.stringify` used by
`secureFilters.jsObj` (standard JSON serialization of null, booleans,
numbers restricted to integers, strings, arrays and objects), which the
repository does not define. -/
def stringify : Jval → List Nat
  | .null => [0x6E, 0x75, 0x6C, 0x6C]
  | .bool true => [0x74, 0x72, 0x75, 0x65]
  | .bool false => [0x66, 0x61, 0x6C, 0x73, 0x65]
  | .num n => intRep n
  | .str s => jsonQuoteString s
  | .arr xs => [0x5B] ++ stringifyList xs ++ [0x5D]
  | .obj kvs => [0x7B] ++ stringifyObj kvs ++ [0x7D]

/-- Comma-separated serialization of a JSON array body. -/
def stringifyList : List Jval → List Nat
  | [] => []
  | [x] => stringify x
  | x :: y :: xs => stringify x ++ [0x2C] ++ stringifyList (y :: xs)

/-- Comma-separated serialization of a JSON object body. -/
def stringifyObj : List (List Nat × Jval) → List Nat
  | [] => []
  | [(k, v)] => jsonQuoteString k ++ [0x3A] ++ stringify v
  | (k, v) :: e :: kvs =>
    jsonQuoteString k ++ [0x3A] ++ stringify v ++ [0x2C] ++ stringifyObj (e :: kvs)

end

/-- `secureFilters.jsObj`: serialize with `JSON.stringify`, then apply the
`json` filter. -/
def jsObj (v : Jval) : List Nat := json (stringify v)

/-- The names the source registers on the template engine:
`TO_CONFIGURE = ['html','js','jsAttr','uri','jsObj','css','style']`. -/
def TO_CONFIGURE : List String :=
  ["html", "js", "jsAttr", "uri", "jsObj", "css", "style"]

/-- References to the public functions of the `secureFilters` module
object. -/
inductive SF where
  | html | js | jsAttr | uri | json | jsObj | css | style
deriving DecidableEq

/-- Property lookup `secureFilters[name]` on the module object (`none` is
the JavaScript `undefined`). -/
def secureFiltersLookup (name : String) : Option SF :=
  if name = "html" then some .html
  else if name = "js" then some .js
  else if name = "jsAttr" then some .jsAttr
  else if name = "uri" then some .uri
  else if name = "json" then some .json
  else if name = "jsObj" then some .jsObj
  else if name = "css" then some .css
  else if name = "style" then some .style
  else none

/-- A template-engine object: an optional filter map (an association list
whose values are either module functions or engine-supplied entries of type
`β`) together with its remaining fields, abstracted as `α`. -/
structure Ejs (α β : Type) where
  filters : Option (List (String × (Option SF ⊕ β)))
  other : α

/-- JavaScript property assignment on an association list: overwrite an
existing key, otherwise append. -/
def setProp {V : Type} : List (String × V) → String → V → List (String × V)
  | [], k, v => [(k, v)]
  | (k', v') :: rest, k, v =>
    if k' = k then (k, v) :: rest else (k', v') :: setProp rest k v

/-- JavaScript property read on an association list. -/
def getProp {V : Type} : List (String × V) → String → Option V
  | [], _ => none
  | (k', v') :: rest, k => if k' = k then some v' else getProp rest k

/-- `secureFilters.configure`: create `ejs.filters` if absent, register every
name in `TO_CONFIGURE`, and return the object. -/
def configure {α β : Type} (e : Ejs α β) : Ejs α β :=
  { e with
    filters := some
      (TO_CONFIGURE.foldl
        (fun m name => setProp m name (Sum.inl (secureFiltersLookup name)))
        (e.filters.getD [])) }

/-- Boolean test for claim C1: a code unit allowed to appear verbatim in the
output of `html` — not a quote or angle bracket, and not a control character
in 0x00-0x1F or 0x7F-0x9F other than tab, newline and carriage return. -/
def c1Allowed (c : Nat) : Bool :=
  decide (¬ (c = 0x3C ∨ c = 0x3E ∨ c = 0x22 ∨
             (c ≤ 0x1F ∧ ¬ (c = 0x09 ∨ c = 0x0A ∨ c = 0x0D)) ∨
             (0x7F ≤ c ∧ c ≤ 0x9F)))

/-- The tails that may legitimately follow an ampersand emitted by `html`:
`amp;`, `quot;`, `lt;`, `gt;` or a numeric-entity hash. -/
def entView : List (List Nat) :=
  [[0x61, 0x6D, 0x70, 0x3B], [0x71, 0x75, 0x6F, 0x74, 0x3B],
   [0x6C, 0x74, 0x3B], [0x67, 0x74, 0x3B], [0x23]]

/-- Scan asserting that every ampersand in the string starts an HTML entity
produced by the encoder (its raw occurrences are all escaped). -/
def noRawAmp : List Nat → Bool
  | [] => true
  | c :: rest =>
    (if c = 0x26 then entView.any (fun t => t.isPrefixOf rest) else true) &&
      noRawAmp rest

/-- Boolean substring test: `pat` occurs contiguously inside the list. -/
def hasSub (pat : List Nat) : List Nat → Bool
  | [] => pat.isEmpty
  | c :: rest => pat.isPrefixOf (c :: rest) || hasSub pat rest

/-- The three code units of the CDATA close sequence. -/
def cdataClose : List Nat := [0x5D, 0x5D, 0x3E]

/-- The nine code units of a closing script tag. -/
def closeScriptTag : List Nat :=
  [0x3C, 0x2F, 0x73, 0x63, 0x72, 0x69, 0x70, 0x74, 0x3E]

/-- Well-formedness scan for UTF-16 code unit sequences: every leading
surrogate is followed by a trailing surrogate and no trailing surrogate
stands alone. -/
def utf16WF : List Nat → Bool
  | [] => true
  | u :: rest =>
    if u < 0xD800 ∨ 0xE000 ≤ u then utf16WF rest
    else if u < 0xDC00 then
      match rest with
      | [] => false
      | v :: rest2 => if 0xDC00 ≤ v ∧ v < 0xE000 then utf16WF rest2 else false
    else false

/-- Whether an `Except` computation succeeded. -/
def exOk {ε α : Type} : Except ε α → Bool
  | .ok _ => true
  | .error _ => false

/-- Claim C2, pass one: the control set stated by the claim,
0x00-0x08, 0x0B, 0x0C, 0x0E-0x1F and 0x7F-0x9F. -/
def specHtmlControlC2 (u : Nat) : Prop :=
  u ≤ 0x08 ∨ u = 0x0B ∨ u = 0x0C ∨ (0x0E ≤ u ∧ u ≤ 0x1F) ∨ (0x7F ≤ u ∧ u ≤ 0x9F)

instance (u : Nat) : Decidable (specHtmlControlC2 u) :=
  inferInstanceAs (Decidable
    (u ≤ 0x08 ∨ u = 0x0B ∨ u = 0x0C ∨ (0x0E ≤ u ∧ u ≤ 0x1F) ∨ (0x7F ≤ u ∧ u ≤ 0x9F)))

/-- Claim C2, pass two: the whitelist stated by the claim — tab, newline,
vertical tab, form feed, carriage return, space, comma, period, digits,
letters, hyphen and U+00A0 through U+FFFF (no underscore). -/
def specHtmlWhitelistC2 (u : Nat) : Prop :=
  u = 0x09 ∨ u = 0x0A ∨ u = 0x0B ∨ u = 0x0C ∨ u = 0x0D ∨ u = 0x20 ∨ u = 0x2C ∨
  u = 0x2E ∨ (0x30 ≤ u ∧ u ≤ 0x39) ∨ (0x41 ≤ u ∧ u ≤ 0x5A) ∨
  (0x61 ≤ u ∧ u ≤ 0x7A) ∨ u = 0x2D ∨ (0xA0 ≤ u ∧ u ≤ 0xFFFF)

instance (u : Nat) : Decidable (specHtmlWhitelistC2 u) :=
  inferInstanceAs (Decidable
    (u = 0x09 ∨ u = 0x0A ∨ u = 0x0B ∨ u = 0x0C ∨ u = 0x0D ∨ u = 0x20 ∨ u = 0x2C ∨
     u = 0x2E ∨ (0x30 ≤ u ∧ u ≤ 0x39) ∨ (0x41 ≤ u ∧ u ≤ 0x5A) ∨
     (0x61 ≤ u ∧ u ≤ 0x7A) ∨ u = 0x2D ∨ (0xA0 ≤ u ∧ u ≤ 0xFFFF)))

/-- Claim C2: the replacement of an excluded code point — named entities for
quote, ampersand and angle brackets, decimal entity `&#D;` below 100,
uppercase hexadecimal entity `&#xH;` at or above 100. -/
def specHtmlEncodeC2 (u : Nat) : List Nat :=
  if u = 0x22 then [0x26, 0x71, 0x75, 0x6F, 0x74, 0x3B]
  else if u = 0x26 then [0x26, 0x61, 0x6D, 0x70, 0x3B]
  else if u = 0x3C then [0x26, 0x6C, 0x74, 0x3B]
  else if u = 0x3E then [0x26, 0x67, 0x74, 0x3B]
  else if u < 100 then [0x26, 0x23] ++ decRep u ++ [0x3B]
  else [0x26, 0x23, 0x78] ++ hexUpper u ++ [0x3B]

/-- The two-pass algorithm exactly as worded in claim C2. -/
def specHtmlC2 (l : List Nat) : List Nat :=
  (l.map (fun u => if specHtmlControlC2 u then 0x20 else u)).flatMap
    (fun u => if specHtmlWhitelistC2 u then [u] else specHtmlEncodeC2 u)

/-- The two-pass algorithm of claim C2 with the whitelist amended to
include the underscore, matching the source regex. -/
def specHtmlC2A (l : List Nat) : List Nat :=
  (l.map (fun u => if specHtmlControlC2 u then 0x20 else u)).flatMap
    (fun u => if specHtmlWhitelistC2 u ∨ u = 0x5F then [u] else specHtmlEncodeC2 u)

/-- Claim C3: the whitelist stated by the claim — comma, period, hyphen,
digits and letters (no underscore). -/
def specJsWhitelistC3 (u : Nat) : Prop :=
  u = 0x2C ∨ u = 0x2E ∨ u = 0x2D ∨ (0x30 ≤ u ∧ u ≤ 0x39) ∨
  (0x41 ≤ u ∧ u ≤ 0x5A) ∨ (0x61 ≤ u ∧ u ≤ 0x7A)

instance (u : Nat) : Decidable (specJsWhitelistC3 u) :=
  inferInstanceAs (Decidable
    (u = 0x2C ∨ u = 0x2E ∨ u = 0x2D ∨ (0x30 ≤ u ∧ u ≤ 0x39) ∨
     (0x41 ≤ u ∧ u ≤ 0x5A) ∨ (0x61 ≤ u ∧ u ≤ 0x7A)))

/-- Claim C3: the replacement of an excluded code unit — `\xHH` with exactly
two uppercase hex digits below 0x80, `\uHHHH` with exactly four at or above
0x80, per UTF-16 code unit. -/
def specJsEncodeC3 (u : Nat) : List Nat :=
  if u < 0x80 then [0x5C, 0x78] ++ padTo 2 (hexUpper u)
  else [0x5C, 0x75] ++ padTo 4 (hexUpper u)

/-- The encoder exactly as worded in claim C3. -/
def specJsC3 (l : List Nat) : List Nat :=
  l.flatMap (fun u => if specJsWhitelistC3 u then [u] else specJsEncodeC3 u)

/-- The encoder of claim C3 with the whitelist amended to include the
underscore, matching the source regex. -/
def specJsC3A (l : List Nat) : List Nat :=
  l.flatMap (fun u =>
    if specJsWhitelistC3 u ∨ u = 0x5F then [u] else specJsEncodeC3 u)

/-- Claim C5: the whitelist stated by the claim — ASCII letters, digits and
all code points at or above U+00A1. -/
def specCssWhitelistC5 (u : Nat) : Prop :=
  (0x41 ≤ u ∧ u ≤ 0x5A) ∨ (0x61 ≤ u ∧ u ≤ 0x7A) ∨ (0x30 ≤ u ∧ u ≤ 0x39) ∨
  0xA1 ≤ u

instance (u : Nat) : Decidable (specCssWhitelistC5 u) :=
  inferInstanceAs (Decidable
    ((0x41 ≤ u ∧ u ≤ 0x5A) ∨ (0x61 ≤ u ∧ u ≤ 0x7A) ∨ (0x30 ≤ u ∧ u ≤ 0x39) ∨
     0xA1 ≤ u))

/-- Claim C5: the replacement of an excluded code point — `\fffd ` for NUL,
otherwise a backslash, lowercase hex digits and a mandatory trailing
space. -/
def specCssEncodeC5 (u : Nat) : List Nat :=
  if u = 0 then [0x5C, 0x66, 0x66, 0x66, 0x64, 0x20]
  else [0x5C] ++ hexLower u ++ [0x20]

/-- The encoder exactly as worded in claim C5. -/
def specCssC5 (l : List Nat) : List Nat :=
  l.flatMap (fun u => if specCssWhitelistC5 u then [u] else specCssEncodeC5 u)

/-- The encoder of claim C5 with the whitelist amended to ASCII letters,
digits and the UTF-16 surrogate code units, matching the source regex. -/
def specCssC5A (l : List Nat) : List Nat :=
  l.flatMap (fun u =>
    if (0x41 ≤ u ∧ u ≤ 0x5A) ∨ (0x61 ≤ u ∧ u ≤ 0x7A) ∨ (0x30 ≤ u ∧ u ≤ 0x39) ∨
       (0xD800 ≤ u ∧ u ≤ 0xDFFF) then [u]
    else specCssEncodeC5 u)

/-- Claim C8: the safe whitelist the claim declares for the html context
(includes vertical tab and form feed). -/
def c8HtmlSafe (u : Nat) : Prop := specHtmlWhitelistC2 u

instance (u : Nat) : Decidable (c8HtmlSafe u) :=
  inferInstanceAs (Decidable (specHtmlWhitelistC2 u))

/-- Claim C8, amended: the html whitelist without vertical tab and form
feed, which the control pass of `html` rewrites to spaces. -/
def c8HtmlSafeA (u : Nat) : Prop :=
  u = 0x09 ∨ u = 0x0A ∨ u = 0x0D ∨ u = 0x20 ∨ u = 0x2C ∨ u = 0x2E ∨
  (0x30 ≤ u ∧ u ≤ 0x39) ∨ (0x41 ≤ u ∧ u ≤ 0x5A) ∨ (0x61 ≤ u ∧ u ≤ 0x7A) ∨
  u = 0x2D ∨ (0xA0 ≤ u ∧ u ≤ 0xFFFF)

instance (u : Nat) : Decidable (c8HtmlSafeA u) :=
  inferInstanceAs (Decidable
    (u = 0x09 ∨ u = 0x0A ∨ u = 0x0D ∨ u = 0x20 ∨ u = 0x2C ∨ u = 0x2E ∨
     (0x30 ≤ u ∧ u ≤ 0x39) ∨ (0x41 ≤ u ∧ u ≤ 0x5A) ∨ (0x61 ≤ u ∧ u ≤ 0x7A) ∨
     u = 0x2D ∨ (0xA0 ≤ u ∧ u ≤ 0xFFFF)))

/-- Claim C8: the safe whitelist the claim declares for the css context
(all code points at or above U+00A1). -/
def c8CssSafe (u : Nat) : Prop := specCssWhitelistC5 u

instance (u : Nat) : Decidable (c8CssSafe u) :=
  inferInstanceAs (Decidable (specCssWhitelistC5 u))

theorem digitsAux_acc (b : Nat) :
    ∀ (fuel n : Nat) (acc : List Nat),
      digitsAux b fuel n acc = digitsAux b fuel n [] ++ acc := by
  intro fuel
  induction fuel with
  | zero => intro n acc; simp [digitsAux]
  | succ f ih =>
    intro n acc
    simp only [digitsAux]
    by_cases h : n < b
    · simp [h]
    · simp only [if_neg h]
      rw [ih (n / b) (n % b :: acc), ih (n / b) [n % b], List.append_assoc]
      simp

theorem digitsAux_fuel (b : Nat) (hb : 2 ≤ b) :
    ∀ (n fuel fuel' : Nat), n < fuel → n < fuel' →
      digitsAux b fuel n [] = digitsAux b fuel' n [] := by
  intro n
  induction n using Nat.strong_induction_on with
  | _ n ih =>
    intro fuel fuel' hf hf'
    obtain ⟨f, rfl⟩ : ∃ f, fuel = f + 1 := ⟨fuel - 1, by omega⟩
    obtain ⟨g, rfl⟩ : ∃ g, fuel' = g + 1 := ⟨fuel' - 1, by omega⟩
    simp only [digitsAux]
    by_cases h : n < b
    · simp [h]
    · simp only [if_neg h]
      have hdiv : n / b < n := Nat.div_lt_self (by omega) (by omega)
      rw [digitsAux_acc b f, digitsAux_acc b g,
        ih (n / b) hdiv f g (by omega) (by omega)]

theorem digitsBase_step (b n : Nat) (hb : 2 ≤ b) :
    digitsBase b n = if n < b then [n] else digitsBase b (n / b) ++ [n % b] := by
  unfold digitsBase
  simp only [digitsAux]
  by_cases h : n < b
  · simp [h]
  · simp only [if_neg h]
    have hdiv : n / b < n := Nat.div_lt_self (by omega) (by omega)
    rw [digitsAux_acc b n,
      digitsAux_fuel b hb (n / b) n (n / b + 1) (by omega) (by omega)]
    simp only [digitsAux]

theorem digitsBase_len_pos (b n : Nat) (hb : 2 ≤ b) :
    1 ≤ (digitsBase b n).length := by
  rw [digitsBase_step b n hb]
  by_cases h : n < b <;> simp [h]

theorem digitsBase_len_le (b : Nat) (hb : 2 ≤ b) :
    ∀ (k n : Nat), 1 ≤ k → n < b ^ k → (digitsBase b n).length ≤ k := by
  intro k
  induction k with
  | zero => intro n h1 _; omega
  | succ k ih =>
    intro n _ hlt
    rw [digitsBase_step b n hb]
    by_cases h : n < b
    · simp [h]
    · simp only [if_neg h, List.length_append, List.length_cons,
        List.length_nil]
      rcases Nat.eq_zero_or_pos k with hk | hk
      · subst hk
        have : b ^ (0 + 1) = b := by ring
        omega
      · have hdivlt : n / b < b ^ k := by
          rw [Nat.div_lt_iff_lt_mul (by omega)]
          calc n < b ^ (k + 1) := hlt
            _ = b ^ k * b := pow_succ b k
        have := ih (n / b) hk hdivlt
        omega

theorem digitsBase_len_ge (b : Nat) (hb : 2 ≤ b) :
    ∀ (k n : Nat), b ^ k ≤ n → k + 1 ≤ (digitsBase b n).length := by
  intro k
  induction k with
  | zero => intro n _; exact digitsBase_len_pos b n hb
  | succ k ih =>
    intro n hge
    have hble : b ≤ b ^ (k + 1) := by
      calc b = b ^ 1 := (pow_one b).symm
        _ ≤ b ^ (k + 1) := Nat.pow_le_pow_right (by omega) (by omega)
    rw [digitsBase_step b n hb, if_neg (by omega)]
    simp only [List.length_append, List.length_cons, List.length_nil]
    have hdivge : b ^ k ≤ n / b := by
      rw [Nat.le_div_iff_mul_le (by omega)]
      calc b ^ k * b = b ^ (k + 1) := (pow_succ b k).symm
        _ ≤ n := hge
    have := ih (n / b) hdivge
    omega

theorem digitsBase_mem (b : Nat) (hb : 2 ≤ b) :
    ∀ (n : Nat), ∀ d ∈ digitsBase b n, d < b := by
  intro n
  induction n using Nat.strong_induction_on with
  | _ n ih =>
    intro d hd
    rw [digitsBase_step b n hb] at hd
    by_cases h : n < b
    · simp [h] at hd; omega
    · rw [if_neg h] at hd
      rcases List.mem_append.mp hd with h1 | h1
      · exact ih (n / b) (Nat.div_lt_self (by omega) (by omega)) d h1
      · have : d = n % b := by simpa using h1
        subst this
        exact Nat.mod_lt _ (by omega)

theorem hexUpper_mem {n c : Nat} (h : c ∈ hexUpper n) :
    (0x30 ≤ c ∧ c ≤ 0x39) ∨ (0x41 ≤ c ∧ c ≤ 0x46) := by
  unfold hexUpper at h
  rcases List.mem_map.mp h with ⟨d, hd, rfl⟩
  have := digitsBase_mem 16 (by omega) n d hd
  unfold hexDigitU
  by_cases h10 : d < 10 <;> simp [h10] <;> omega

theorem hexLower_mem {n c : Nat} (h : c ∈ hexLower n) :
    (0x30 ≤ c ∧ c ≤ 0x39) ∨ (0x61 ≤ c ∧ c ≤ 0x66) := by
  unfold hexLower at h
  rcases List.mem_map.mp h with ⟨d, hd, rfl⟩
  have := digitsBase_mem 16 (by omega) n d hd
  unfold hexDigitL
  by_cases h10 : d < 10 <;> simp [h10] <;> omega

theorem decRep_mem {n c : Nat} (h : c ∈ decRep n) :
    0x30 ≤ c ∧ c ≤ 0x39 := by
  unfold decRep at h
  rcases List.mem_map.mp h with ⟨d, hd, rfl⟩
  have := digitsBase_mem 10 (by omega) n d hd
  omega

theorem hexUpper_length (n : Nat) :
    (hexUpper n).length = (digitsBase 16 n).length := List.length_map _ _

theorem isPrefixOf_append_mono {t r q : List Nat} (h : t.isPrefixOf r = true) :
    t.isPrefixOf (r ++ q) = true := by
  induction t generalizing r with
  | nil => simp [List.isPrefixOf]
  | cons a t' ih =>
    cases r with
    | nil => simp [List.isPrefixOf] at h
    | cons b r' =>
      simp only [List.isPrefixOf, List.cons_append, Bool.and_eq_true] at h ⊢
      exact ⟨h.1, ih h.2⟩

theorem noRawAmp_append {p q : List Nat} (hp : noRawAmp p = true)
    (hq : noRawAmp q = true) : noRawAmp (p ++ q) = true := by
  induction p with
  | nil => simpa using hq
  | cons c p' ih =>
    simp only [noRawAmp, Bool.and_eq_true, List.cons_append] at hp ⊢
    refine ⟨?_, ih hp.2⟩
    by_cases hc : c = 0x26
    · simp only [if_pos hc] at hp ⊢
      rcases List.any_eq_true.mp hp.1 with ⟨t, ht, hpre⟩
      exact List.any_eq_true.mpr ⟨t, ht, isPrefixOf_append_mono hpre⟩
    · simp [hc]

theorem noRawAmp_of_no_amp {l : List Nat} (h : ∀ c ∈ l, c ≠ 0x26) :
    noRawAmp l = true := by
  induction l with
  | nil => rfl
  | cons c l' ih =>
    simp only [noRawAmp, Bool.and_eq_true]
    refine ⟨?_, ih (fun x hx => h x (List.mem_cons_of_mem _ hx))⟩
    rw [if_neg (h c (List.mem_cons_self _ _))]

theorem htmlEncodeChar_mem {u c : Nat} (h : c ∈ htmlEncodeChar u) :
    c = 0x26 ∨ c = 0x23 ∨ c = 0x3B ∨ (0x61 ≤ c ∧ c ≤ 0x7A) ∨
    (0x30 ≤ c ∧ c ≤ 0x39) ∨ (0x41 ≤ c ∧ c ≤ 0x46) := by
  unfold htmlEncodeChar at h
  split at h
  · simp at h; omega
  split at h
  · simp at h; omega
  split at h
  · simp at h; omega
  split at h
  · simp at h; omega
  split at h
  · simp only [List.cons_append, List.mem_cons, List.mem_append,
      List.mem_singleton, List.nil_append] at h
    rcases h with h | h | h | h | h
    · omega
    · omega
    · have := decRep_mem h; omega
    · omega
    · simp at h
  · simp only [List.cons_append, List.mem_cons, List.mem_append,
      List.mem_singleton, List.nil_append] at h
    rcases h with h | h | h | h | h | h
    · omega
    · omega
    · omega
    · have := hexUpper_mem h; omega
    · omega
    · simp at h

theorem noRawAmp_cons (c : Nat) (rest : List Nat) :
    noRawAmp (c :: rest) =
      ((if c = 0x26 then entView.any (fun t => t.isPrefixOf rest) else true) &&
        noRawAmp rest) := rfl

theorem htmlEncodeChar_noRawAmp (u : Nat) : noRawAmp (htmlEncodeChar u) = true := by
  unfold htmlEncodeChar
  split
  · decide
  split
  · decide
  split
  · decide
  split
  · decide
  split
  · show noRawAmp (0x26 :: 0x23 :: (decRep u ++ [0x3B])) = true
    rw [noRawAmp_cons, noRawAmp_cons, if_pos rfl, if_neg (by omega)]
    simp only [Bool.true_and]
    rw [Bool.and_eq_true]; refine ⟨?_, ?_⟩
    · exact List.any_eq_true.mpr
        ⟨[0x23], by simp [entView], by simp [List.isPrefixOf]⟩
    · apply noRawAmp_of_no_amp
      intro c hc
      rcases List.mem_append.mp hc with hc | hc
      · have := decRep_mem hc; omega
      · simp at hc; omega
  · show noRawAmp (0x26 :: 0x23 :: 0x78 :: (hexUpper u ++ [0x3B])) = true
    rw [noRawAmp_cons, noRawAmp_cons, noRawAmp_cons, if_pos rfl,
      if_neg (by omega), if_neg (by omega)]
    simp only [Bool.true_and]
    rw [Bool.and_eq_true]; refine ⟨?_, ?_⟩
    · exact List.any_eq_true.mpr
        ⟨[0x23], by simp [entView], by simp [List.isPrefixOf]⟩
    · apply noRawAmp_of_no_amp
      intro c hc
      rcases List.mem_append.mp hc with hc | hc
      · have := hexUpper_mem hc; omega
      · simp at hc; omega

theorem ctrl_out_not_control (u : Nat) :
    ¬ HTML_CONTROL (if HTML_CONTROL u then 0x20 else u) := by
  by_cases h : HTML_CONTROL u
  · simp only [if_pos h]; decide
  · simpa only [if_neg h] using h

theorem html_flat_safe (m : List Nat) :
    (∀ u ∈ m, ¬ HTML_CONTROL u) →
    ((m.flatMap (fun u => if HTML_NOT_WHITELISTED u then htmlEncodeChar u else [u])).all
        c1Allowed = true) ∧
    noRawAmp
      (m.flatMap (fun u => if HTML_NOT_WHITELISTED u then htmlEncodeChar u else [u])) =
      true := by
  induction m with
  | nil => exact fun _ => ⟨rfl, rfl⟩
  | cons u m' ih =>
    intro hm
    have hu : ¬ HTML_CONTROL u := hm u (List.mem_cons_self _ _)
    obtain ⟨iha, ihr⟩ := ih (fun x hx => hm x (List.mem_cons_of_mem _ hx))
    rw [List.flatMap_cons]
    constructor
    · rw [List.all_append, iha, Bool.and_true]
      by_cases hw : HTML_NOT_WHITELISTED u
      · rw [if_pos hw]
        apply List.all_eq_true.mpr
        intro c hc
        have hmem := htmlEncodeChar_mem hc
        unfold c1Allowed
        exact decide_eq_true (by omega)
      · rw [if_neg hw]
        have hwl : htmlWhitelistChar u := not_not.mp hw
        unfold htmlWhitelistChar at hwl
        unfold HTML_CONTROL at hu
        apply List.all_eq_true.mpr
        intro c hc
        have hcu : c = u := by simpa using hc
        unfold c1Allowed
        exact decide_eq_true (by omega)
    · apply noRawAmp_append ?_ ihr
      by_cases hw : HTML_NOT_WHITELISTED u
      · rw [if_pos hw]; exact htmlEncodeChar_noRawAmp u
      · rw [if_neg hw]
        apply noRawAmp_of_no_amp
        intro c hc
        have hcu : c = u := by simpa using hc
        have hwl : htmlWhitelistChar u := not_not.mp hw
        unfold htmlWhitelistChar at hwl
        omega

/-- Claim C1: for every input, the output of `html` contains no quote or
angle bracket, no control character in 0x00-0x1F or 0x7F-0x9F other than
tab, newline and carriage return, and every ampersand in it starts an
entity emitted by the encoder (no raw ampersand), for arbitrary inputs
including already-encoded strings. -/
theorem c1_html_no_raw_forbidden (l : List Nat) :
    ((html l).all c1Allowed = true) ∧ noRawAmp (html l) = true := by
  unfold html
  apply html_flat_safe
  intro u hu
  rcases List.mem_map.mp hu with ⟨v, _, rfl⟩
  exact ctrl_out_not_control v

/-- Claim C2 counterexample: the claim's whitelist omits the underscore,
which the source whitelists, so on the one-character string containing an
underscore the two encoders disagree. -/
theorem c2_counterexample : html [0x5F] ≠ specHtmlC2 [0x5F] := by decide

/-- Claim C2, amended (the second-pass whitelist additionally contains the
underscore): `html` equals the two-pass algorithm described by the claim. -/
theorem c2_amended (l : List Nat) : html l = specHtmlC2A l := by
  unfold html specHtmlC2A
  have hmap : (fun u => if HTML_CONTROL u then 0x20 else u) =
      (fun u => if specHtmlControlC2 u then 0x20 else u) := by
    funext u
    have hiff : HTML_CONTROL u ↔ specHtmlControlC2 u := by
      unfold HTML_CONTROL specHtmlControlC2; omega
    by_cases h : HTML_CONTROL u
    · rw [if_pos h, if_pos (hiff.mp h)]
    · rw [if_neg h, if_neg (fun hh => h (hiff.mpr hh))]
  have hfun : (fun u => if HTML_NOT_WHITELISTED u then htmlEncodeChar u else [u]) =
      (fun u => if specHtmlWhitelistC2 u ∨ u = 0x5F then [u] else specHtmlEncodeC2 u) := by
    funext u
    have hiff : HTML_NOT_WHITELISTED u ↔ ¬ (specHtmlWhitelistC2 u ∨ u = 0x5F) := by
      unfold HTML_NOT_WHITELISTED htmlWhitelistChar specHtmlWhitelistC2; omega
    by_cases h : HTML_NOT_WHITELISTED u
    · rw [if_pos h, if_neg (hiff.mp h)]
      rfl
    · rw [if_neg h, if_pos (by by_contra hcon; exact h (hiff.mpr hcon))]
  rw [hmap, hfun]

/-- Claim C4: `jsAttr` is exactly the composition of `html` after `js`,
with no other transformation. -/
theorem c4_jsAttr_comp (l : List Nat) : jsAttr l = html (js l) := rfl

/-- Claim C3 counterexample: the claim's whitelist omits the underscore,
which the source whitelists, so on the one-character string containing an
underscore the two encoders disagree. -/
theorem c3_counterexample : js [0x5F] ≠ specJsC3 [0x5F] := by decide

theorem jsSlashEncoder_eq_spec {u : Nat} (hu : u < 0x10000) :
    jsSlashEncoder u = specJsEncodeC3 u := by
  simp only [jsSlashEncoder, specJsEncodeC3]
  have hlen1 : 1 ≤ (hexUpper u).length := by
    rw [hexUpper_length]; exact digitsBase_len_pos 16 u (by omega)
  by_cases h80 : u < 0x80
  · simp only [if_pos h80]
    have hle : (hexUpper u).length ≤ 2 := by
      rw [hexUpper_length]
      exact digitsBase_len_le 16 (by omega) 2 u (by omega) (by omega)
    by_cases h1 : (hexUpper u).length = 1
    · rw [if_pos h1]
      unfold padTo
      rw [h1]
      simp [List.replicate]
    · have h2 : (hexUpper u).length = 2 := by omega
      rw [if_neg h1]
      unfold padTo
      rw [h2]
      simp [List.replicate]
  · simp only [if_neg h80]
    have hge2 : 2 ≤ (hexUpper u).length := by
      rw [hexUpper_length]
      have := digitsBase_len_ge 16 (by omega) 1 u (by rw [pow_one]; omega)
      omega
    have hle4 : (hexUpper u).length ≤ 4 := by
      rw [hexUpper_length]
      refine digitsBase_len_le 16 (by omega) 4 u (by omega) ?_
      have h16 : (16 : Nat) ^ 4 = 65536 := by norm_num
      omega
    by_cases hl2 : (hexUpper u).length = 2
    · rw [if_pos hl2]
      unfold padTo
      rw [hl2]
      simp [List.replicate]
    · by_cases hl3 : (hexUpper u).length = 3
      · rw [if_neg hl2, if_pos hl3]
        unfold padTo
        rw [hl3]
        simp [List.replicate]
      · have hl4 : (hexUpper u).length = 4 := by omega
        rw [if_neg hl2, if_neg hl3, if_pos hl4]
        unfold padTo
        rw [hl4]
        simp [List.replicate]

/-- Claim C3, amended (the whitelist additionally contains the underscore):
on genuine UTF-16 code units, `js` replaces exactly the code units outside
the whitelist, with two uppercase hex digits below 0x80 and four at or
above 0x80, per code unit. -/
theorem c3_amended (l : List Nat) (h : ∀ u ∈ l, u < 0x10000) :
    js l = specJsC3A l := by
  induction l with
  | nil => rfl
  | cons u l' ih =>
    have hu : u < 0x10000 := h u (List.mem_cons_self _ _)
    have ihr := ih (fun x hx => h x (List.mem_cons_of_mem _ hx))
    simp only [js, specJsC3A, List.flatMap_cons] at ihr ⊢
    have hpiece : (if JS_NOT_WHITELISTED u then jsSlashEncoder u else [u]) =
        (if specJsWhitelistC3 u ∨ u = 0x5F then [u] else specJsEncodeC3 u) := by
      have hiff : JS_NOT_WHITELISTED u ↔ ¬ (specJsWhitelistC3 u ∨ u = 0x5F) := by
        unfold JS_NOT_WHITELISTED jsWhitelistChar specJsWhitelistC3; omega
      by_cases hw : JS_NOT_WHITELISTED u
      · rw [if_pos hw, if_neg (hiff.mp hw)]
        exact jsSlashEncoder_eq_spec hu
      · rw [if_neg hw, if_pos (by by_contra hcon; exact hw (hiff.mpr hcon))]
    rw [hpiece, ihr]

/-- Witness for the amended claim C3 at a concrete input containing a code
unit the encoder escapes, an underscore, a letter and a surrogate pair. -/
theorem c3_witness :
    (∀ u ∈ ([0x3C, 0x5F, 0x61, 0xD83D, 0xDE36] : List Nat), u < 0x10000) ∧
    js [0x3C, 0x5F, 0x61, 0xD83D, 0xDE36] =
      specJsC3A [0x3C, 0x5F, 0x61, 0xD83D, 0xDE36] :=
  ⟨by decide, c3_amended _ (by decide)⟩

/-- Claim C5 counterexample: the claim whitelists every code point at or
above U+00A1, but the source escapes U+00A1 (only letters, digits and
surrogates pass). -/
theorem c5_counterexample : css [0xA1] ≠ specCssC5 [0xA1] := by decide

/-- Claim C5, amended (the whitelist is ASCII letters, digits and the
UTF-16 surrogate range U+D800 through U+DFFF): `css` replaces exactly the
code points outside that whitelist by a backslash, lowercase hex digits and
a trailing space, with `\fffd ` for NUL. -/
theorem c5_amended (l : List Nat) : css l = specCssC5A l := by
  unfold css specCssC5A
  have hfun : (fun u => if CSS_NOT_WHITELISTED u then cssEncodeChar u else [u]) =
      (fun u =>
        if (0x41 ≤ u ∧ u ≤ 0x5A) ∨ (0x61 ≤ u ∧ u ≤ 0x7A) ∨ (0x30 ≤ u ∧ u ≤ 0x39) ∨
           (0xD800 ≤ u ∧ u ≤ 0xDFFF) then [u]
        else specCssEncodeC5 u) := by
    funext u
    have hiff : CSS_NOT_WHITELISTED u ↔
        ¬ ((0x41 ≤ u ∧ u ≤ 0x5A) ∨ (0x61 ≤ u ∧ u ≤ 0x7A) ∨ (0x30 ≤ u ∧ u ≤ 0x39) ∨
           (0xD800 ≤ u ∧ u ≤ 0xDFFF)) := by
      unfold CSS_NOT_WHITELISTED cssWhitelistChar; omega
    by_cases h : CSS_NOT_WHITELISTED u
    · rw [if_pos h, if_neg (hiff.mp h)]
      rfl
    · rw [if_neg h, if_pos (by by_contra hcon; exact h (hiff.mpr hcon))]
  rw [hfun]

theorem jsSlashEncoder_mem {u y : Nat} (h : y ∈ jsSlashEncoder u) :
    y = 0x5C ∨ y = 0x78 ∨ y = 0x75 ∨ (0x30 ≤ y ∧ y ≤ 0x39) ∨
    (0x41 ≤ y ∧ y ≤ 0x46) := by
  simp only [jsSlashEncoder] at h
  split at h
  · split at h
    · rcases List.mem_append.mp h with h | h
      · simp at h; omega
      · have := hexUpper_mem h; omega
    · rcases List.mem_append.mp h with h | h
      · simp at h; omega
      · have := hexUpper_mem h; omega
  · split at h
    · rcases List.mem_append.mp h with h | h
      · simp at h; omega
      · have := hexUpper_mem h; omega
    split at h
    · rcases List.mem_append.mp h with h | h
      · simp at h; omega
      · have := hexUpper_mem h; omega
    split at h
    · rcases List.mem_append.mp h with h | h
      · simp at h; omega
      · have := hexUpper_mem h; omega
    · simp at h; omega

theorem replaceCdataAux_mem :
    ∀ (fuel : Nat) (l : List Nat) (y : Nat), y ∈ replaceCdataAux fuel l →
      y ∈ l ∨ y ∈ cdataRepl := by
  intro fuel
  induction fuel with
  | zero =>
    intro l y hy
    simp only [replaceCdataAux] at hy
    exact Or.inl hy
  | succ f ih =>
    intro l y hy
    cases l with
    | nil => simp [replaceCdataAux] at hy
    | cons a rest =>
      simp only [replaceCdataAux] at hy
      by_cases ha : a = 0x5D
      · rw [if_pos ha] at hy
        split at hy
        · split at hy
          · rcases List.mem_append.mp hy with hy | hy
            · exact Or.inr hy
            · rcases ih _ y hy with hr | hr
              · exact Or.inl (by simp [hr])
              · exact Or.inr hr
          · split at hy
            · rcases List.mem_append.mp hy with hy | hy
              · exact Or.inr hy
              · rcases ih _ y hy with hr | hr
                · exact Or.inl (by simp [hr])
                · exact Or.inr hr
            · rcases List.mem_cons.mp hy with rfl | hy
              · exact Or.inl (List.mem_cons_self _ _)
              · rcases ih _ y hy with hr | hr
                · exact Or.inl (by simp at hr ⊢; tauto)
                · exact Or.inr hr
          · split at hy
            · rcases List.mem_append.mp hy with hy | hy
              · exact Or.inr hy
              · rcases ih _ y hy with hr | hr
                · exact Or.inl (by simp [hr])
                · exact Or.inr hr
            · rcases List.mem_cons.mp hy with rfl | hy
              · exact Or.inl (List.mem_cons_self _ _)
              · rcases ih _ y hy with hr | hr
                · exact Or.inl (by simp at hr ⊢; tauto)
                · exact Or.inr hr
          · rcases List.mem_cons.mp hy with rfl | hy
            · exact Or.inl (List.mem_cons_self _ _)
            · rcases ih _ y hy with hr | hr
              · exact Or.inl (by simp at hr ⊢; tauto)
              · exact Or.inr hr
        · rcases List.mem_cons.mp hy with rfl | hy
          · exact Or.inl (List.mem_cons_self _ _)
          · rcases ih _ y hy with hr | hr
            · exact Or.inl (List.mem_cons_of_mem _ hr)
            · exact Or.inr hr
      · rw [if_neg ha] at hy
        rcases List.mem_cons.mp hy with rfl | hy
        · exact Or.inl (List.mem_cons_self _ _)
        · rcases ih _ y hy with hr | hr
          · exact Or.inl (List.mem_cons_of_mem _ hr)
          · exact Or.inr hr

theorem json_no_angle (l : List Nat) :
    ∀ y ∈ json l, y ≠ 0x3C ∧ y ≠ 0x3E := by
  intro y hy
  unfold json replaceCdata at hy
  rcases replaceCdataAux_mem _ _ y hy with hy | hy
  · rcases List.mem_flatMap.mp hy with ⟨u, _, hu⟩
    by_cases hw : JSON_NOT_WHITELISTED u
    · rw [if_pos hw] at hu
      have := jsSlashEncoder_mem hu
      omega
    · rw [if_neg hw] at hu
      have hyu : y = u := by simpa using hu
      have hwl : jsonWhitelistChar u := not_not.mp hw
      unfold jsonWhitelistChar at hwl
      omega
  · simp [cdataRepl] at hy
    omega

theorem mem_of_isPrefixOf {t l : List Nat} (h : t.isPrefixOf l = true) :
    ∀ y ∈ t, y ∈ l := by
  induction t generalizing l with
  | nil => simp
  | cons a t' ih =>
    cases l with
    | nil => simp [List.isPrefixOf] at h
    | cons b l' =>
      simp only [List.isPrefixOf, Bool.and_eq_true, beq_iff_eq] at h
      intro y hy
      rcases List.mem_cons.mp hy with rfl | hy
      · rw [h.1]; exact List.mem_cons_self _ _
      · exact List.mem_cons_of_mem _ (ih h.2 y hy)

theorem hasSub_false_of_not_mem (y : Nat) {pat l : List Nat} (hy : y ∈ pat)
    (h : y ∉ l) : hasSub pat l = false := by
  induction l with
  | nil =>
    cases pat with
    | nil => simp at hy
    | cons a t => rfl
  | cons b l' ih =>
    have h1 : pat.isPrefixOf (b :: l') = false := by
      cases hp : pat.isPrefixOf (b :: l')
      · rfl
      · exact absurd (mem_of_isPrefixOf hp y hy) h
    have h2 : hasSub pat l' = false := ih (fun hm => h (List.mem_cons_of_mem _ hm))
    simp [hasSub, h1, h2]

/-- Claim C6: no output of `json` or `jsObj` contains the substring CDATA
close sequence or a closing script tag, and `json` renders an input CDATA
close sequence as the escape `\x5D\x5D\x3E`. -/
theorem c6_breakout_prevention :
    (∀ s : List Nat, hasSub cdataClose (json s) = false ∧
        hasSub closeScriptTag (json s) = false) ∧
    (∀ v : Jval, hasSub cdataClose (jsObj v) = false ∧
        hasSub closeScriptTag (jsObj v) = false) ∧
    json [0x5D, 0x5D, 0x3E] = cdataRepl := by
  have hj : ∀ s : List Nat, hasSub cdataClose (json s) = false ∧
      hasSub closeScriptTag (json s) = false := by
    intro s
    constructor
    · exact hasSub_false_of_not_mem 0x3E (by simp [cdataClose])
        (fun hm => (json_no_angle s _ hm).2 rfl)
    · exact hasSub_false_of_not_mem 0x3E (by simp [closeScriptTag])
        (fun hm => (json_no_angle s _ hm).2 rfl)
  exact ⟨hj, fun v => hj (stringify v), by decide⟩

theorem exOk_map {ε α β : Type} (f : α → β) (e : Except ε α) :
    exOk (e.map f) = exOk e := by
  cases e <;> rfl

theorem encAux_cons (u : Nat) (rest : List Nat) :
    encodeURIComponentAux (u :: rest) =
      (if uriUnreserved u then (encodeURIComponentAux rest).map (fun t => u :: t)
       else if u < 0xD800 ∨ 0xE000 ≤ u then
         (encodeURIComponentAux rest).map (fun t => utf8pct u ++ t)
       else if u < 0xDC00 then
         (match rest with
           | [] => Except.error ()
           | v :: rest2 =>
             if 0xDC00 ≤ v ∧ v < 0xE000 then
               (encodeURIComponentAux rest2).map
                 (fun t => utf8pct ((u - 0xD800) * 0x400 + (v - 0xDC00) + 0x10000) ++ t)
             else Except.error ())
       else Except.error ()) := by
  rw [encodeURIComponentAux.eq_def]

theorem utf16WF_cons (u : Nat) (rest : List Nat) :
    utf16WF (u :: rest) =
      (if u < 0xD800 ∨ 0xE000 ≤ u then utf16WF rest
       else if u < 0xDC00 then
         (match rest with
           | [] => false
           | v :: rest2 =>
             if 0xDC00 ≤ v ∧ v < 0xE000 then utf16WF rest2 else false)
       else false) := by
  rw [utf16WF.eq_def]

theorem exOk_enc_pass {u : Nat} (rest : List Nat) (h2 : u < 0xD800 ∨ 0xE000 ≤ u) :
    exOk (encodeURIComponentAux (u :: rest)) = exOk (encodeURIComponentAux rest) := by
  rw [encAux_cons]
  by_cases h1 : uriUnreserved u
  · rw [if_pos h1, exOk_map]
  · rw [if_neg h1, if_pos h2, exOk_map]

theorem encAux_lead_nil {u : Nat} (h2 : ¬ (u < 0xD800 ∨ 0xE000 ≤ u))
    (h3 : u < 0xDC00) : encodeURIComponentAux [u] = Except.error () := by
  have h1 : ¬ uriUnreserved u := by unfold uriUnreserved; omega
  rw [encAux_cons, if_neg h1, if_neg h2, if_pos h3]

theorem encAux_lead_cons {u v : Nat} (rest2 : List Nat)
    (h2 : ¬ (u < 0xD800 ∨ 0xE000 ≤ u)) (h3 : u < 0xDC00) :
    encodeURIComponentAux (u :: v :: rest2) =
      (if 0xDC00 ≤ v ∧ v < 0xE000 then
        (encodeURIComponentAux rest2).map
          (fun t => utf8pct ((u - 0xD800) * 0x400 + (v - 0xDC00) + 0x10000) ++ t)
      else Except.error ()) := by
  have h1 : ¬ uriUnreserved u := by unfold uriUnreserved; omega
  rw [encAux_cons, if_neg h1, if_neg h2, if_pos h3]

theorem encAux_trail {u : Nat} (rest : List Nat)
    (h2 : ¬ (u < 0xD800 ∨ 0xE000 ≤ u)) (h3 : ¬ u < 0xDC00) :
    encodeURIComponentAux (u :: rest) = Except.error () := by
  have h1 : ¬ uriUnreserved u := by unfold uriUnreserved; omega
  rw [encAux_cons, if_neg h1, if_neg h2, if_neg h3]

theorem utf16WF_lead_nil {u : Nat} (h2 : ¬ (u < 0xD800 ∨ 0xE000 ≤ u))
    (h3 : u < 0xDC00) : utf16WF [u] = false := by
  rw [utf16WF_cons, if_neg h2, if_pos h3]

theorem utf16WF_lead_cons {u v : Nat} (rest2 : List Nat)
    (h2 : ¬ (u < 0xD800 ∨ 0xE000 ≤ u)) (h3 : u < 0xDC00) :
    utf16WF (u :: v :: rest2) =
      (if 0xDC00 ≤ v ∧ v < 0xE000 then utf16WF rest2 else false) := by
  rw [utf16WF_cons, if_neg h2, if_pos h3]

theorem exOk_encAux :
    ∀ (n : Nat) (s : List Nat), s.length ≤ n →
      exOk (encodeURIComponentAux s) = utf16WF s := by
  intro n
  induction n with
  | zero =>
    intro s hs
    have : s = [] := List.eq_nil_of_length_eq_zero (by omega)
    subst this
    rfl
  | succ n ih =>
    intro s hs
    cases s with
    | nil => rfl
    | cons u rest =>
      have hlen : rest.length ≤ n := by simp at hs; omega
      by_cases h2 : u < 0xD800 ∨ 0xE000 ≤ u
      · rw [exOk_enc_pass rest h2, utf16WF_cons, if_pos h2]
        exact ih rest hlen
      · by_cases h3 : u < 0xDC00
        · cases rest with
          | nil => rw [encAux_lead_nil h2 h3, utf16WF_lead_nil h2 h3]; rfl
          | cons v rest2 =>
            have hlen2 : rest2.length ≤ n := by simp at hs; omega
            rw [encAux_lead_cons rest2 h2 h3, utf16WF_lead_cons rest2 h2 h3]
            by_cases h4 : 0xDC00 ≤ v ∧ v < 0xE000
            · rw [if_pos h4, if_pos h4, exOk_map]
              exact ih rest2 hlen2
            · rw [if_neg h4, if_neg h4]; rfl
        · rw [encAux_trail rest h2 h3, utf16WF_cons, if_neg h2, if_neg h3]; rfl

/-- Claim C7 counterexample: `uri` applied to a string consisting of a lone
leading surrogate raises `URIError` from `encodeURIComponent`, so the
encoders other than `jsObj` do not all accept every input. -/
theorem c7_counterexample : uri [0xD800] = Except.error () := rfl

/-- Claim C7, amended: `uri` succeeds exactly on well-formed UTF-16 inputs
and fails (with the platform URIError) exactly when the input contains an
unpaired surrogate half; the remaining primitive encoders are total
functions with no failure path. -/
theorem c7_uri_ok_iff_wellformed (s : List Nat) :
    exOk (uri s) = utf16WF s := by
  unfold uri
  rw [exOk_map]
  exact exOk_encAux s.length s le_rfl

theorem html_fixpoint (l : List Nat) (h : ∀ u ∈ l, c8HtmlSafeA u) : html l = l := by
  induction l with
  | nil => rfl
  | cons u l' ih =>
    have hu := h u (List.mem_cons_self _ _)
    have ihr := ih (fun x hx => h x (List.mem_cons_of_mem _ hx))
    unfold c8HtmlSafeA at hu
    have hctrl : ¬ HTML_CONTROL u := by unfold HTML_CONTROL; omega
    have hwl : ¬ HTML_NOT_WHITELISTED u := by
      unfold HTML_NOT_WHITELISTED htmlWhitelistChar; omega
    simp only [html, List.map_cons, List.flatMap_cons] at ihr ⊢
    rw [if_neg hctrl, if_neg hwl, ihr]
    rfl

theorem js_fixpoint (l : List Nat) (h : ∀ u ∈ l, jsWhitelistChar u) : js l = l := by
  induction l with
  | nil => rfl
  | cons u l' ih =>
    have hu := h u (List.mem_cons_self _ _)
    have ihr := ih (fun x hx => h x (List.mem_cons_of_mem _ hx))
    have hwl : ¬ JS_NOT_WHITELISTED u := not_not.mpr hu
    simp only [js, List.flatMap_cons] at ihr ⊢
    rw [if_neg hwl, ihr]
    rfl

theorem css_fixpoint (l : List Nat) (h : ∀ u ∈ l, cssWhitelistChar u) : css l = l := by
  induction l with
  | nil => rfl
  | cons u l' ih =>
    have hu := h u (List.mem_cons_self _ _)
    have ihr := ih (fun x hx => h x (List.mem_cons_of_mem _ hx))
    have hwl : ¬ CSS_NOT_WHITELISTED u := not_not.mpr hu
    simp only [css, List.flatMap_cons] at ihr ⊢
    rw [if_neg hwl, ihr]
    rfl

/-- Claim C8 counterexample: the declared html whitelist contains vertical
tab, which `html` converts to a space, and the declared css whitelist
contains U+00A1, which `css` escapes, so neither encoder is the identity on
its declared whitelist. -/
theorem c8_counterexample :
    ((∀ u ∈ ([0x0B] : List Nat), c8HtmlSafe u) ∧ html [0x0B] ≠ [0x0B]) ∧
    ((∀ u ∈ ([0xA1] : List Nat), c8CssSafe u) ∧ css [0xA1] ≠ [0xA1]) := by
  decide

/-- Claim C8, amended: each encoder is the identity on strings drawn from
its safe whitelist, where the html whitelist excludes vertical tab and form
feed (rewritten to spaces by the control pass) and the css whitelist is
ASCII letters, digits and the surrogate code units. -/
theorem c8_whitelist_fixpoint :
    (∀ l : List Nat, (∀ u ∈ l, c8HtmlSafeA u) → html l = l) ∧
    (∀ l : List Nat, (∀ u ∈ l, specJsWhitelistC3 u) → js l = l) ∧
    (∀ l : List Nat, (∀ u ∈ l, cssWhitelistChar u) → css l = l) := by
  refine ⟨html_fixpoint, ?_, css_fixpoint⟩
  intro l h
  apply js_fixpoint
  intro u hu
  have := h u hu
  unfold specJsWhitelistC3 at this
  unfold jsWhitelistChar
  omega

/-- Witness for the amended claim C8 at concrete safe strings for each of
the three contexts. -/
theorem c8_witness :
    html [0x48, 0x09, 0x69] = [0x48, 0x09, 0x69] ∧
    js [0x2C, 0x61, 0x2D] = [0x2C, 0x61, 0x2D] ∧
    css [0x41, 0xD800, 0xDFFF, 0x39] = [0x41, 0xD800, 0xDFFF, 0x39] :=
  ⟨c8_whitelist_fixpoint.1 _ (by decide), c8_whitelist_fixpoint.2.1 _ (by decide),
   c8_whitelist_fixpoint.2.2 _ (by decide)⟩

/-- Claim C10: `css` passes every UTF-16 surrogate code unit through
unchanged (so characters outside the Basic Multilingual Plane appear
verbatim, one surrogate pair at a time), and on single code units it is the
identity exactly on ASCII letters, digits and surrogates. -/
theorem c10_css_surrogate_passthrough :
    (∀ l : List Nat, (∀ u ∈ l, 0xD800 ≤ u ∧ u ≤ 0xDFFF) → css l = l) ∧
    (∀ u : Nat, u < 0x10000 →
      (css [u] = [u] ↔
        (0x41 ≤ u ∧ u ≤ 0x5A) ∨ (0x61 ≤ u ∧ u ≤ 0x7A) ∨ (0x30 ≤ u ∧ u ≤ 0x39) ∨
        (0xD800 ≤ u ∧ u ≤ 0xDFFF))) := by
  constructor
  · intro l h
    apply css_fixpoint
    intro u hu
    have := h u hu
    unfold cssWhitelistChar
    omega
  · intro u _
    constructor
    · intro hcss
      by_contra hcon
      have hnw : CSS_NOT_WHITELISTED u := by
        unfold CSS_NOT_WHITELISTED cssWhitelistChar
        omega
      have hone : css [u] = cssEncodeChar u := by
        unfold css
        simp only [List.flatMap_cons, List.flatMap_nil, List.append_nil]
        rw [if_pos hnw]
      rw [hone] at hcss
      have hlen3 : 3 ≤ (cssEncodeChar u).length := by
        unfold cssEncodeChar
        by_cases h0 : u = 0
        · rw [if_pos h0]; simp
        · rw [if_neg h0]
          simp only [List.length_append, List.length_cons, List.length_nil]
          have := digitsBase_len_pos 16 u (by omega)
          unfold hexLower
          rw [List.length_map]
          omega
      have hlen1 : (cssEncodeChar u).length = 1 := by rw [hcss]; rfl
      omega
    · intro hw
      have hnw : ¬ CSS_NOT_WHITELISTED u := by
        unfold CSS_NOT_WHITELISTED cssWhitelistChar
        omega
      unfold css
      simp only [List.flatMap_cons, List.flatMap_nil, List.append_nil]
      rw [if_neg hnw]

/-- Witness for claim C10: a concrete surrogate pair passes through `css`
verbatim, and a concrete letter is a fixpoint of the single-unit identity
characterization. -/
theorem c10_witness :
    css [0xD83D, 0xDE36] = [0xD83D, 0xDE36] ∧
    (css [0x47] = [0x47] ↔
      (0x41 ≤ 0x47 ∧ 0x47 ≤ 0x5A) ∨ (0x61 ≤ 0x47 ∧ 0x47 ≤ 0x7A) ∨
      (0x30 ≤ 0x47 ∧ 0x47 ≤ 0x39) ∨ (0xD800 ≤ 0x47 ∧ 0x47 ≤ 0xDFFF)) :=
  ⟨c10_css_surrogate_passthrough.1 _ (by decide),
   c10_css_surrogate_passthrough.2 0x47 (by decide)⟩

theorem getProp_setProp_self {V : Type} (m : List (String × V)) (k : String) (v : V) :
    getProp (setProp m k v) k = some v := by
  induction m with
  | nil => simp [setProp, getProp]
  | cons p m' ih =>
    obtain ⟨a, b⟩ := p
    by_cases ha : a = k
    · simp [setProp, ha, getProp]
    · simp [setProp, ha, getProp, ih]

theorem getProp_setProp_ne {V : Type} (m : List (String × V)) (k k' : String)
    (v : V) (h : k' ≠ k) : getProp (setProp m k v) k' = getProp m k' := by
  induction m with
  | nil =>
    simp only [setProp, getProp]
    rw [if_neg (fun hh : k = k' => h hh.symm)]
  | cons p m' ih =>
    obtain ⟨a, b⟩ := p
    by_cases ha : a = k
    · subst ha
      simp only [setProp, if_pos rfl, getProp]
      rw [if_neg (fun hh => h hh.symm), if_neg (fun hh => h hh.symm)]
    · simp only [setProp, if_neg ha, getProp]
      by_cases hak : a = k'
      · rw [if_pos hak, if_pos hak]
      · rw [if_neg hak, if_neg hak, ih]

theorem getProp_foldl_set {V : Type} (f : String → V) :
    ∀ (names : List String) (m : List (String × V)) (k : String),
      getProp (names.foldl (fun acc n => setProp acc n (f n)) m) k =
        if k ∈ names then some (f k) else getProp m k := by
  intro names
  induction names with
  | nil => intro m k; simp
  | cons n rest ih =>
    intro m k
    simp only [List.foldl_cons]
    rw [ih]
    by_cases hk : k ∈ rest
    · rw [if_pos hk, if_pos (List.mem_cons_of_mem _ hk)]
    · rw [if_neg hk]
      by_cases hkn : k = n
      · subst hkn
        rw [getProp_setProp_self, if_pos (List.mem_cons_self _ _)]
      · rw [getProp_setProp_ne _ _ _ _ hkn, if_neg (by simp [hkn, hk])]

/-- Claim C9 counterexample: `configure` installs no filter named json —
the source list TO_CONFIGURE has only the seven names html, js, jsAttr,
uri, jsObj, css and style. -/
theorem c9_counterexample :
    getProp (((configure (⟨none, ()⟩ : Ejs Unit Unit)).filters).getD []) "json" =
      none := by decide

/-- Claim C9, amended (the installed filters are the seven names of
TO_CONFIGURE; json is not among them): `configure` creates the filter map
when absent, installs each TO_CONFIGURE name bound to the module function
of the same name, leaves every entry under any other name unchanged, and
returns the given object with only its filter map updated. -/
theorem c9_configure (α β : Type) (e : Ejs α β) :
    ((configure e).filters).isSome = true ∧
    (∀ name ∈ TO_CONFIGURE,
      getProp (((configure e).filters).getD []) name =
        some (Sum.inl (secureFiltersLookup name))) ∧
    (∀ name, name ∉ TO_CONFIGURE →
      getProp (((configure e).filters).getD []) name =
        getProp ((e.filters).getD []) name) ∧
    (configure e).other = e.other := by
  refine ⟨rfl, ?_, ?_, rfl⟩
  · intro name hname
    simp only [configure, Option.getD_some]
    rw [getProp_foldl_set, if_pos hname]
  · intro name hname
    simp only [configure, Option.getD_some]
    rw [getProp_foldl_set, if_neg hname]

/-- Witness for the amended claim C9: on a concrete engine object with one
pre-existing entry, `configure` installs the css filter and leaves the
unrelated entry unchanged. -/
theorem c9_witness :
    getProp (((configure (⟨some [("x", Sum.inr 7)], 5⟩ : Ejs Nat Nat)).filters).getD [])
        "css" = some (Sum.inl (secureFiltersLookup "css")) ∧
    getProp (((configure (⟨some [("x", Sum.inr 7)], 5⟩ : Ejs Nat Nat)).filters).getD [])
        "x" =
      getProp (((⟨some [("x", Sum.inr 7)], 5⟩ : Ejs Nat Nat).filters).getD []) "x" :=
  ⟨(c9_configure Nat Nat _).2.1 "css" (by decide),
   (c9_configure Nat Nat _).2.2.1 "x" (by decide)⟩
